import Mathlib

/-
  Verification development for the formatador-importacao-pessoas pipeline
  (src/app.py).  The pipeline is shallowly embedded: cell values and headers
  are lists of characters, pandas Series become lists of strings, and the
  DataFrame assembled by process_data becomes a list of rows aligned with the
  fixed target schema.  Unicode NFKD accent stripping and Python lowercasing
  are modelled per character, restricted to the Latin letters that occur in
  the synonym dictionary; the regex classes \s and \d are modelled by
  Char.isWhitespace and Char.isDigit.
-/

namespace Formatador

/-- Cell values and headers are modelled as lists of characters. -/
abbrev Str := List Char

/-- Whitespace test used by str.strip and by the regex class \s. -/
def isSpace (c : Char) : Bool := c.isWhitespace

/-- Removal of leading whitespace. -/
def trimL (s : Str) : Str := s.dropWhile isSpace

/-- Removal of trailing whitespace. -/
def trimR (s : Str) : Str := (s.reverse.dropWhile isSpace).reverse

/-- Python str.strip: remove whitespace from both ends. -/
def trim (s : Str) : Str := trimR (trimL s)

/-- Per-character model of strip_accents (src/app.py lines 40-43): NFKD
decomposition followed by removal of combining marks maps each accented
Latin letter used by the synonym dictionary to its base letter; every other
character is kept unchanged. -/
def stripAccentChar (c : Char) : Char :=
  match c with
  | 'á' => 'a'
  | 'à' => 'a'
  | 'â' => 'a'
  | 'ã' => 'a'
  | 'ä' => 'a'
  | 'Á' => 'A'
  | 'À' => 'A'
  | 'Â' => 'A'
  | 'Ã' => 'A'
  | 'Ä' => 'A'
  | 'é' => 'e'
  | 'è' => 'e'
  | 'ê' => 'e'
  | 'ë' => 'e'
  | 'É' => 'E'
  | 'È' => 'E'
  | 'Ê' => 'E'
  | 'Ë' => 'E'
  | 'í' => 'i'
  | 'ì' => 'i'
  | 'î' => 'i'
  | 'ï' => 'i'
  | 'Í' => 'I'
  | 'Ì' => 'I'
  | 'Î' => 'I'
  | 'Ï' => 'I'
  | 'ó' => 'o'
  | 'ò' => 'o'
  | 'ô' => 'o'
  | 'õ' => 'o'
  | 'ö' => 'o'
  | 'Ó' => 'O'
  | 'Ò' => 'O'
  | 'Ô' => 'O'
  | 'Õ' => 'O'
  | 'Ö' => 'O'
  | 'ú' => 'u'
  | 'ù' => 'u'
  | 'û' => 'u'
  | 'ü' => 'u'
  | 'Ú' => 'U'
  | 'Ù' => 'U'
  | 'Û' => 'U'
  | 'Ü' => 'U'
  | 'ç' => 'c'
  | 'Ç' => 'C'
  | 'ñ' => 'n'
  | 'Ñ' => 'N'
  | c => c

/-- Per-character model of Python str.lower restricted to ASCII letters. -/
def toLowerChar (c : Char) : Char :=
  match c with
  | 'A' => 'a'
  | 'B' => 'b'
  | 'C' => 'c'
  | 'D' => 'd'
  | 'E' => 'e'
  | 'F' => 'f'
  | 'G' => 'g'
  | 'H' => 'h'
  | 'I' => 'i'
  | 'J' => 'j'
  | 'K' => 'k'
  | 'L' => 'l'
  | 'M' => 'm'
  | 'N' => 'n'
  | 'O' => 'o'
  | 'P' => 'p'
  | 'Q' => 'q'
  | 'R' => 'r'
  | 'S' => 's'
  | 'T' => 't'
  | 'U' => 'u'
  | 'V' => 'v'
  | 'W' => 'w'
  | 'X' => 'x'
  | 'Y' => 'y'
  | 'Z' => 'z'
  | c => c

/-- strip_accents applied to a whole string. -/
def strip_accents (s : Str) : Str := s.map stripAccentChar

/-- Python str.lower applied to a whole string. -/
def lowerS (s : Str) : Str := s.map toLowerChar

/-- Model of re.sub applied with the pattern of one-or-more whitespace
characters and the replacement by one space: each maximal whitespace run
becomes a single space.  The Boolean flag records whether the previous
character belonged to the current run. -/
def collapseWSAux : Bool → Str → Str
  | _, [] => []
  | inRun, c :: cs =>
    if isSpace c then
      if inRun then collapseWSAux true cs else ' ' :: collapseWSAux true cs
    else c :: collapseWSAux false cs

/-- norm_text (src/app.py lines 45-47): strip accents, lowercase, collapse
whitespace runs to single spaces, strip the ends. -/
def norm_text (s : Str) : Str := trim (collapseWSAux false (lowerS (strip_accents s)))

/-- The sentinel tokens of clean_str_series (src/app.py line 51), the empty
string included. -/
def SENTINELS : List Str := [(r"nan").data, (r"none").data, (r"na").data, (r"n/a").data, []]

/-- The cell-level cleaning of clean_str_series (src/app.py lines 49-52):
a value whose normal form is a sentinel becomes empty, any other value is
kept with its ends stripped. -/
def clean (x : Str) : Str := if norm_text x ∈ SENTINELS then [] else trim x

/-- clean_str_series applied to a whole column. -/
def clean_str_series (col : List Str) : List Str := col.map clean

/-- clean_document (src/app.py lines 54-62): a blank value classifies as
(empty, unknown); otherwise every non-digit character is stripped and the
remaining digit count decides the person type, 11 for a natural person (F)
and 14 for a company (J), anything else unknown (empty type). -/
def clean_document (doc : Str) : Str × Str :=
  if trim doc = [] then ([], [])
  else
    let dc := doc.filter Char.isDigit
    if dc.length = 11 then (dc, (r"F").data)
    else if dc.length = 14 then (dc, (r"J").data)
    else (dc, [])

/-! ### Whitespace and trimming lemmas -/

lemma isSpace_stripAccentChar (c : Char) : isSpace (stripAccentChar c) = isSpace c := by
  unfold stripAccentChar
  split <;> rfl

lemma isSpace_toLowerChar (c : Char) : isSpace (toLowerChar c) = isSpace c := by
  unfold toLowerChar
  split <;> rfl

lemma trim_cons_space {c : Char} (h : isSpace c = true) (z : Str) : trim (c :: z) = trim z := by
  simp [trim, trimL, List.dropWhile_cons_of_pos h]

lemma trimR_append_space (z : Str) : trimR (z ++ [' ']) = trimR z := by
  have hsp : isSpace ' ' = true := by decide
  simp [trimR, List.reverse_append, List.dropWhile_cons_of_pos hsp]

lemma trimL_eq_nil {z : Str} (h : ∀ c ∈ z, isSpace c = true) : trimL z = [] :=
  List.dropWhile_eq_nil_iff.mpr h

lemma trim_append_space (z : Str) : trim (z ++ [' ']) = trim z := by
  unfold trim
  rw [trimL, List.dropWhile_append]
  split
  · rename_i h
    rw [List.isEmpty_iff] at h
    have hall : ∀ c ∈ z, isSpace c = true := List.dropWhile_eq_nil_iff.mp h
    simp [trimL, h, trimR, List.dropWhile_cons_of_pos (show isSpace ' ' = true by decide)]
  · exact trimR_append_space (trimL z)

lemma trimR_decomp (y : Str) : ∃ s, y = trimR y ++ s ∧ ∀ c ∈ s, isSpace c = true := by
  refine ⟨(y.reverse.takeWhile isSpace).reverse, ?_, ?_⟩
  · conv_lhs => rw [show y = y.reverse.reverse by simp]
    rw [trimR]
    rw [← List.reverse_append]
    congr 1
    exact (List.takeWhile_append_dropWhile isSpace y.reverse).symm
  · intro c hc
    rw [List.mem_reverse] at hc
    exact List.mem_takeWhile_imp hc

lemma collapse_all_space (s : Str) (h : ∀ c ∈ s, isSpace c = true) :
    collapseWSAux true s = [] := by
  induction s with
  | nil => rfl
  | cons c cs ih =>
    have hc : isSpace c = true := h c (by simp)
    simp only [collapseWSAux, hc, if_pos]
    exact ih (fun d hd => h d (by simp [hd]))

lemma collapse_append_space (s : Str) (hs : ∀ c ∈ s, isSpace c = true) :
    ∀ (l : Str) (b : Bool), collapseWSAux b (l ++ s) = collapseWSAux b l ∨
      collapseWSAux b (l ++ s) = collapseWSAux b l ++ [' '] := by
  intro l
  induction l with
  | nil =>
    intro b
    cases s with
    | nil => exact Or.inl rfl
    | cons c cs =>
      have hc : isSpace c = true := hs c (by simp)
      have hcs : collapseWSAux true cs = [] :=
        collapse_all_space cs (fun d hd => hs d (by simp [hd]))
      cases b with
      | true => simp [collapseWSAux, hc, hcs]
      | false => simp [collapseWSAux, hc, hcs]
  | cons c cs ih =>
    intro b
    by_cases hc : isSpace c = true
    · cases b with
      | true =>
        simpa [collapseWSAux, hc] using ih true
      | false =>
        rcases ih true with h | h
        · exact Or.inl (by simp [collapseWSAux, hc, h])
        · exact Or.inr (by simp [collapseWSAux, hc, h])
    · rcases ih false with h | h
      · exact Or.inl (by simp [collapseWSAux, hc, h])
      · exact Or.inr (by simp [collapseWSAux, hc, h])

lemma collapse_true_eq_trimL (ys : Str) :
    collapseWSAux true ys = collapseWSAux false (trimL ys) := by
  induction ys with
  | nil => rfl
  | cons c cs ih =>
    by_cases hc : isSpace c = true
    · have h1 : collapseWSAux true (c :: cs) = collapseWSAux true cs := by
        simp [collapseWSAux, hc]
      have h2 : trimL (c :: cs) = trimL cs := by
        simp [trimL, List.dropWhile_cons_of_pos hc]
      rw [h1, h2, ih]
    · have h1 : collapseWSAux true (c :: cs) = c :: collapseWSAux false cs := by
        simp [collapseWSAux, hc]
      have h2 : trimL (c :: cs) = c :: cs := by
        simp [trimL, List.dropWhile_cons_of_neg hc]
      have h3 : collapseWSAux false (c :: cs) = c :: collapseWSAux false cs := by
        simp [collapseWSAux, hc]
      rw [h1, h2, h3]

lemma trim_collapse_trimL (y : Str) :
    trim (collapseWSAux false (trimL y)) = trim (collapseWSAux false y) := by
  cases y with
  | nil => rfl
  | cons c cs =>
    by_cases hc : isSpace c = true
    · have h2 : trimL (c :: cs) = trimL cs := by
        simp [trimL, List.dropWhile_cons_of_pos hc]
      have h3 : collapseWSAux false (c :: cs) = ' ' :: collapseWSAux true cs := by
        simp [collapseWSAux, hc]
      rw [h2, h3, trim_cons_space (by decide), collapse_true_eq_trimL]
    · have h2 : trimL (c :: cs) = c :: cs := by
        simp [trimL, List.dropWhile_cons_of_neg hc]
      rw [h2]

lemma trim_collapse_trimR (y : Str) :
    trim (collapseWSAux false (trimR y)) = trim (collapseWSAux false y) := by
  obtain ⟨s, hy, hs⟩ := trimR_decomp y
  conv_rhs => rw [hy]
  rcases collapse_append_space s hs (trimR y) false with h | h
  · rw [h]
  · rw [h, trim_append_space]

lemma trim_collapse_trim (y : Str) :
    trim (collapseWSAux false (trim y)) = trim (collapseWSAux false y) := by
  show trim (collapseWSAux false (trimR (trimL y))) = trim (collapseWSAux false y)
  rw [trim_collapse_trimR (trimL y), trim_collapse_trimL]

lemma map_trim (f : Char → Char) (hf : ∀ c, isSpace (f c) = isSpace c) (x : Str) :
    (trim x).map f = trim (x.map f) := by
  have hdw : ∀ (l : Str), (l.map f).dropWhile isSpace = (l.dropWhile isSpace).map f := by
    intro l
    rw [List.dropWhile_map]
    have hcomp : (isSpace ∘ f) = isSpace := funext hf
    rw [hcomp]
  unfold trim trimL trimR
  rw [List.map_reverse, ← hdw, List.map_reverse, ← hdw]

lemma norm_text_trim (x : Str) : norm_text (trim x) = norm_text x := by
  unfold norm_text lowerS strip_accents
  rw [map_trim stripAccentChar isSpace_stripAccentChar x,
    map_trim toLowerChar isSpace_toLowerChar (x.map stripAccentChar),
    trim_collapse_trim]

lemma dropWhile_self (p : Char → Bool) (l : List Char) :
    (l.dropWhile p).dropWhile p = l.dropWhile p := by
  induction l with
  | nil => rfl
  | cons a as ih =>
    by_cases hp : p a = true
    · rw [List.dropWhile_cons_of_pos hp]
      exact ih
    · rw [List.dropWhile_cons_of_neg hp, List.dropWhile_cons_of_neg hp]

lemma trimR_idem (y : Str) : trimR (trimR y) = trimR y := by
  unfold trimR
  rw [List.reverse_reverse]
  congr 1
  exact dropWhile_self isSpace y.reverse

lemma dropWhile_head_false (p : Char → Bool) :
    ∀ (l : List Char) (a : Char) (t : List Char), l.dropWhile p = a :: t → p a = false := by
  intro l
  induction l with
  | nil =>
    intro a t h
    simp [List.dropWhile] at h
  | cons b bs ih =>
    intro a t h
    by_cases hb : p b = true
    · rw [List.dropWhile_cons_of_pos hb] at h
      exact ih a t h
    · rw [List.dropWhile_cons_of_neg hb] at h
      injection h with h1 h2
      subst h1
      simpa using hb

lemma trim_idem (x : Str) : trim (trim x) = trim x := by
  obtain ⟨s, hdec, hs⟩ := trimR_decomp (trimL x)
  unfold trim
  have h1 : trimL (trimR (trimL x)) = trimR (trimL x) := by
    cases hu : trimR (trimL x) with
    | nil => rfl
    | cons a as =>
      have hpref : trimL x = a :: (as ++ s) := by
        rw [hdec, hu]
        simp
      have ha2 : isSpace a = false := dropWhile_head_false isSpace x a (as ++ s) hpref
      rw [trimL, List.dropWhile_cons_of_neg (by simp [ha2])]
  rw [h1, trimR_idem]

/-- C7: clean is an idempotent, total function on cell values: for every
input x, clean (clean x) = clean x.  Totality holds by construction, clean
being a Lean function. -/
theorem clean_idempotent (x : Str) : clean (clean x) = clean x := by
  unfold clean
  by_cases h : norm_text x ∈ SENTINELS
  · rw [if_pos h, if_pos (show norm_text [] ∈ SENTINELS by decide)]
  · rw [if_neg h, norm_text_trim, if_neg h, trim_idem]

/-! ### Column resolver and pipeline -/

/-- COLUMN_MAPPINGS (src/app.py lines 16-31): canonical field names paired
with their ordered synonym lists, in declaration order. -/
def COLUMN_MAPPINGS : List (Str × List Str) :=
  [((r"razao_social").data,
    [(r"nome e sobrenome").data, (r"nome completo").data, (r"razao social").data,
      (r"razão social").data, (r"cliente").data, (r"empresa").data, (r"contato").data,
      (r"responsavel").data, (r"responsável").data, (r"nome").data]),
    ((r"sobrenome").data,
    [(r"sobrenome").data, (r"ultimo nome").data, (r"último nome").data,
      (r"sobre nome").data, (r"ultimo sobrenome").data, (r"apelido").data]),
    ((r"primeiro_nome").data,
    [(r"primeiro nome").data, (r"nome").data, (r"nome do cliente").data,
      (r"nome pessoa").data]),
    ((r"fantasia").data, [(r"fantasia").data, (r"nome fantasia").data]),
    ((r"cpf").data, [(r"cpf/cnpj").data, (r"cpf").data, (r"cnpj").data, (r"documento").data]),
    ((r"email").data, [(r"email").data, (r"e-mail").data]),
    ((r"celular").data,
    [(r"celular").data, (r"whatsapp").data, (r"telefone").data, (r"telefone celular").data]),
    ((r"cep").data, [(r"cep").data, (r"codigo postal").data, (r"código postal").data]),
    ((r"endereco").data,
    [(r"endereco").data, (r"endereço").data, (r"logradouro").data, (r"rua").data]),
    ((r"numero").data, [(r"numero").data, (r"número").data, (r"num").data]),
    ((r"bairro").data, [(r"bairro").data, (r"distrito").data]),
    ((r"cidade").data, [(r"cidade").data, (r"municipio").data, (r"município").data]),
    ((r"uf").data, [(r"uf").data, (r"estado").data, (r"unidade federativa").data]),
    ((r"observacoes").data,
    [(r"observacoes").data, (r"observações").data, (r"obs").data, (r"observacao").data,
      (r"observacões").data])]

/-- TARGET_COLUMNS (src/app.py lines 33-37): the fixed output schema order. -/
def TARGET_COLUMNS : List Str :=
  [(r"codigo").data, (r"razao_social").data, (r"fantasia").data, (r"cpf").data,
    (r"tipo_pessoa").data, (r"email").data, (r"celular").data, (r"cep").data,
    (r"endereco").data, (r"numero").data, (r"complemento").data, (r"bairro").data,
    (r"cidade").data, (r"uf").data, (r"observacoes").data]

/-- Python substring containment (the in operator on strings). -/
def isSubstrOf (needle hay : Str) : Bool :=
  (List.range (hay.length + 1)).any (fun i => decide ((hay.drop i).take needle.length = needle))

/-- The matching test of map_source_columns line 84: some synonym, lowered,
occurs inside the normalized header. -/
def headerMatches (syns : List Str) (h : Str) : Bool :=
  syns.any (fun n => isSubstrOf (lowerS n) (norm_text h))

/-- The inner loop of map_source_columns (src/app.py lines 83-88): the first
source column whose normalized header contains a synonym is cleaned
element-wise; if no header matches, a column of empty strings is produced. -/
def resolveField (cols : List (Str × List Str)) (nrows : Nat) (syns : List Str) : List Str :=
  match cols.find? (fun c => headerMatches syns c.1) with
  | some c => clean_str_series c.2
  | none => List.replicate nrows []

/-- map_source_columns (src/app.py lines 80-89) over a source table given as
header/column pairs, producing canonical field/column pairs in
COLUMN_MAPPINGS order. -/
def map_source_columns (cols : List (Str × List Str)) (nrows : Nat) : List (Str × List Str) :=
  COLUMN_MAPPINGS.map (fun p => (p.1, resolveField cols nrows p.2))

/-- A source table: header/column pairs plus its row count. -/
structure Table where
  cols : List (Str × List Str)
  nrows : Nat

/-- Association-list lookup by key (Python dict access). -/
def lookupCol (k : Str) : List (Str × List Str) → Option (List Str)
  | [] => none
  | p :: ps => if p.1 = k then some p.2 else lookupCol k ps

/-- Lookup with a default (Python dict.get). -/
def lookupColD (m : List (Str × List Str)) (k : Str) (d : List Str) : List Str :=
  (lookupCol k m).getD d

/-- Python dict assignment: replace the value of an existing key, or append
the binding when the key is new. -/
def setCol (m : List (Str × List Str)) (k : Str) (v : List Str) : List (Str × List Str) :=
  if m.any (fun p => decide (p.1 = k)) then
    m.map (fun p => if p.1 = k then (k, v) else p)
  else m ++ [(k, v)]

/-- Lines 118-120: a space-free, non-empty name with a non-empty surname is
replaced by the stripped concatenation of the two. -/
def nameStep1 (rs sn : Str) : Str :=
  if rs.any isSpace = false ∧ rs ≠ [] ∧ sn ≠ [] then trim (rs ++ ' ' :: sn) else rs

/-- Lines 122-123: an empty name becomes the stripped concatenation of first
name and surname. -/
def nameStep2 (rs1 pn sn : Str) : Str :=
  if rs1 = [] then trim (pn ++ ' ' :: sn) else rs1

/-- Line 124: a name that strips to nothing becomes the sentinel label. -/
def nameStep3 (rs2 : Str) : Str :=
  if trim rs2 = [] then (r"NÃO INFORMADO").data else rs2

/-- The per-row name assembly of process_data (src/app.py lines 113-124):
concatenate a space-free non-empty name with the surname, fall back to
first name plus surname when empty, and finally to the sentinel label. -/
def reconstruct_name (rs sn pn : Str) : Str := nameStep3 (nameStep2 (nameStep1 rs sn) pn sn)

/-- The uf post-processing of line 133: strip, uppercase, keep the first two
characters.  Uppercasing is modelled per ASCII character. -/
def toUpperChar (c : Char) : Char :=
  match c with
  | 'a' => 'A'
  | 'b' => 'B'
  | 'c' => 'C'
  | 'd' => 'D'
  | 'e' => 'E'
  | 'f' => 'F'
  | 'g' => 'G'
  | 'h' => 'H'
  | 'i' => 'I'
  | 'j' => 'J'
  | 'k' => 'K'
  | 'l' => 'L'
  | 'm' => 'M'
  | 'n' => 'N'
  | 'o' => 'O'
  | 'p' => 'P'
  | 'q' => 'Q'
  | 'r' => 'R'
  | 's' => 'S'
  | 't' => 'T'
  | 'u' => 'U'
  | 'v' => 'V'
  | 'w' => 'W'
  | 'x' => 'X'
  | 'y' => 'Y'
  | 'z' => 'Z'
  | c => c

def ufPost (s : Str) : Str := ((trim s).map toUpperChar).take 2

/-- Apply the uf post-processing to the uf output column only. -/
def applyUf (cols : List (Str × List Str)) : List (Str × List Str) :=
  cols.map (fun p => if p.1 = (r"uf").data then (p.1, p.2.map ufPost) else p)

/-- The DataFrame construction of lines 128-131: one column per target
field, defaulting to a column of empty strings for unmapped fields. -/
def buildOutputCols (m : List (Str × List Str)) (nrows : Nat) : List (Str × List Str) :=
  TARGET_COLUMNS.map (fun c => (c, lookupColD m c (List.replicate nrows [])))

/-- Row-major view of the output columns. -/
def tableRows (cols : List (Str × List Str)) (nrows : Nat) : List (List Str) :=
  (List.range nrows).map (fun i => cols.map (fun p => p.2.getD i []))

/-- Index of a canonical field inside the target schema. -/
def idxOfCol : List Str → Str → Nat
  | [], _ => 0
  | h :: t, c => if h = c then 0 else idxOfCol t c + 1

/-- Field access on an output row, aligned with TARGET_COLUMNS. -/
def rowField (row : List Str) (c : Str) : Str := row.getD (idxOfCol TARGET_COLUMNS c) []

/-- The deduplication key of line 135: the value of the cpf column. -/
def rowCpf (row : List Str) : Str := rowField row ((r"cpf").data)

/-- Count of non-empty fields of an output row. -/
def nonEmptyCount (row : List Str) : Nat := row.countP (fun v => !v.isEmpty)

/-- drop_duplicates on the cpf column with keep equal to first
(src/app.py line 135): a row is kept exactly when its key has not been seen
on an earlier row. -/
def dropDupBy : List (List Str) → List Str → List (List Str)
  | [], _ => []
  | row :: rest, seen =>
    if rowCpf row ∈ seen then dropDupBy rest seen
    else row :: dropDupBy rest (rowCpf row :: seen)

/-- The resolved columns of a table (line 102). -/
def mappedCols (t : Table) : List (Str × List Str) := map_source_columns t.cols t.nrows

/-- The classified documents of line 110: clean_document applied element-wise
to the resolved cpf column. -/
def docsOf (t : Table) : List (Str × Str) :=
  (lookupColD (mappedCols t) ((r"cpf").data) []).map clean_document

/-- The mapping after line 111: the cpf column replaced by the cleaned digit
strings and tipo_pessoa added with the person types. -/
def mapped2 (t : Table) : List (Str × List Str) :=
  setCol (setCol (mappedCols t) ((r"cpf").data) ((docsOf t).map Prod.fst))
    ((r"tipo_pessoa").data) ((docsOf t).map Prod.snd)

/-- The finalized legal-name column of lines 113-124. -/
def rsFinal (t : Table) : List Str :=
  List.zipWith3 reconstruct_name
    (lookupColD (mapped2 t) ((r"razao_social").data) [])
    (lookupColD (mapped2 t) ((r"sobrenome").data) [])
    (lookupColD (mapped2 t) ((r"primeiro_nome").data) [])

/-- The mapping after line 126. -/
def mappedFinal (t : Table) : List (Str × List Str) :=
  setCol (mapped2 t) ((r"razao_social").data) (rsFinal t)

/-- The assembled output columns of lines 128-133 (schema projection plus
the uf post-processing). -/
def outCols (t : Table) : List (Str × List Str) :=
  applyUf (buildOutputCols (mappedFinal t) t.nrows)

/-- The assembled output table of process_data just before deduplication,
viewed row-major. -/
def assembled (t : Table) : List (List Str) := tableRows (outCols t) t.nrows

/-- The failure modes of process_data: an empty input table, or no usable
document column. -/
inductive ProcErr where
  | emptyInput
  | noDocumentColumn
deriving DecidableEq

/-- process_data (src/app.py lines 91-141): reject an empty table, reject a
table whose resolved document column is entirely empty, otherwise assemble
the canonical table and drop duplicate documents keeping the first row. -/
def process_data (t : Table) : Except ProcErr (List (List Str)) :=
  if t.nrows = 0 ∨ t.cols = [] then Except.error ProcErr.emptyInput
  else if (lookupColD (mappedCols t) ((r"cpf").data) []).all (fun v => v.isEmpty) then
    Except.error ProcErr.noDocumentColumn
  else Except.ok (dropDupBy (assembled t) [])

/-- The synonym list of a canonical field. -/
def synsOf (field : Str) : List Str := (lookupCol field COLUMN_MAPPINGS).getD []

/-- A one-column demonstration table whose single header is selected by two
canonical fields. -/
def demoNome : List (Str × List Str) := [((r"Nome").data, [(r"Maria").data])]

/-- Two rows sharing one document, the second strictly more complete. -/
def T1 : Table :=
  ⟨[((r"CPF").data, [(r"123.456.789-09").data, (r"123.456.789-09").data]),
    ((r"Email").data, [[], (r"a@b.c").data])], 2⟩

def C1row1 : List Str :=
  [[], (r"NÃO INFORMADO").data, [], (r"12345678909").data, (r"F").data,
    [], [], [], [], [], [], [], [], [], []]

def C1row2 : List Str :=
  [[], (r"NÃO INFORMADO").data, [], (r"12345678909").data, (r"F").data,
    (r"a@b.c").data, [], [], [], [], [], [], [], [], []]

/-- Three rows with two distinct documents. -/
def T3 : Table :=
  ⟨[((r"CPF").data, [(r"111").data, (r"111").data, (r"222").data])], 3⟩

def C3rowA : List Str :=
  [[], (r"NÃO INFORMADO").data, [], (r"111").data, [],
    [], [], [], [], [], [], [], [], [], []]

def C3rowB : List Str :=
  [[], (r"NÃO INFORMADO").data, [], (r"222").data, [],
    [], [], [], [], [], [], [], [], [], []]

/-- A company whose trade name equals its legal name. -/
def T4 : Table :=
  ⟨[((r"Razão Social").data, [(r"ACME").data]),
    ((r"CNPJ").data, [(r"12.345.678/0001-95").data]),
    ((r"Fantasia").data, [(r"ACME").data])], 1⟩

def C4row : List Str :=
  [[], (r"ACME").data, (r"ACME").data, (r"12345678000195").data, (r"J").data,
    [], [], [], [], [], [], [], [], [], []]

/-- A document whose cleaned digit string has length three. -/
def T9 : Table := ⟨[((r"CPF").data, [(r"123").data])], 1⟩

def C9row : List Str :=
  [[], (r"NÃO INFORMADO").data, [], (r"123").data, [],
    [], [], [], [], [], [], [], [], [], []]

/-- A one-row table for the empty codigo and complemento fields. -/
def T10 : Table := ⟨[((r"CPF").data, [(r"1").data])], 1⟩

def C10row : List Str :=
  [[], (r"NÃO INFORMADO").data, [], (r"1").data, [],
    [], [], [], [], [], [], [], [], [], []]

/-! ### Helper lemmas about the pipeline -/

lemma lookupCol_map_resolve (cols : List (Str × List Str)) (nrows : Nat) :
    ∀ (l : List (Str × List Str)) (field : Str) (syns : List Str),
      (l.map Prod.fst).Nodup → (field, syns) ∈ l →
      lookupCol field (l.map (fun p => (p.1, resolveField cols nrows p.2))) =
        some (resolveField cols nrows syns) := by
  intro l
  induction l with
  | nil => intro field syns _ hmem; cases hmem
  | cons p ps ih =>
    intro field syns hnd hmem
    rw [List.map_cons, List.nodup_cons] at hnd
    cases hmem with
    | head => simp [lookupCol]
    | tail _ hmem =>
      have hne : p.1 ≠ field := by
        intro hEq
        exact hnd.1 (hEq ▸ List.mem_map_of_mem Prod.fst hmem)
      simp only [List.map_cons, lookupCol, if_neg hne]
      exact ih field syns hnd.2 hmem

lemma find?_first_hit {α : Type} (p : α → Bool) :
    ∀ (pre : List α) (c : α) (post : List α), (∀ x ∈ pre, p x = false) → p c = true →
      (pre ++ c :: post).find? p = some c := by
  intro pre
  induction pre with
  | nil => intro c post _ hc; simp [List.find?_cons_of_pos _ hc]
  | cons a as ih =>
    intro c post hpre hc
    have ha : ¬ p a = true := by simp [hpre a (by simp)]
    rw [List.cons_append, List.find?_cons_of_neg _ ha]
    exact ih c post (fun x hx => hpre x (by simp [hx])) hc

lemma tableRows_length (cols : List (Str × List Str)) (n : Nat) :
    (tableRows cols n).length = n := by
  simp [tableRows]

lemma tableRows_getD (cols : List (Str × List Str)) (n i : Nat) (hi : i < n) :
    (tableRows cols n).getD i [] = cols.map (fun p => p.2.getD i []) := by
  rw [tableRows, List.getD_eq_getElem?_getD, List.getElem?_map, List.getElem?_range hi]
  rfl

lemma getD_replicate_nil (n i : Nat) : (List.replicate n ([] : Str)).getD i [] = [] := by
  induction n generalizing i with
  | zero => rfl
  | succ m ih =>
    cases i with
    | zero => rfl
    | succ j => exact ih j

/-- dropDupBy only ever keeps rows of the input list, in order. -/
lemma dropDupBy_sublist : ∀ (l : List (List Str)) (seen : List Str),
    (dropDupBy l seen).Sublist l := by
  intro l
  induction l with
  | nil => intro seen; simp [dropDupBy]
  | cons r rest ih =>
    intro seen
    rw [dropDupBy]
    split
    · exact (ih seen).cons r
    · exact (ih (rowCpf r :: seen)).cons₂ r

/-- No kept row carries a key that was already seen. -/
lemma dropDupBy_seen_zero : ∀ (l : List (List Str)) (seen : List Str) (k : Str),
    k ∈ seen → (dropDupBy l seen).countP (fun row => decide (rowCpf row = k)) = 0 := by
  intro l
  induction l with
  | nil => intro seen k _; simp [dropDupBy]
  | cons r rest ih =>
    intro seen k hk
    rw [dropDupBy]
    split
    · exact ih seen k hk
    · rename_i hnot
      rw [List.countP_cons]
      have hne : rowCpf r ≠ k := fun hEq => hnot (hEq ▸ hk)
      simp only [hne, decide_False, if_false]
      exact ih (rowCpf r :: seen) k (by simp [hk])

/-- Each unseen key occurring in the list is kept on exactly one row. -/
lemma dropDupBy_count : ∀ (l : List (List Str)) (seen : List Str) (k : Str), k ∉ seen →
    (dropDupBy l seen).countP (fun row => decide (rowCpf row = k)) =
      if k ∈ l.map rowCpf then 1 else 0 := by
  intro l
  induction l with
  | nil => intro seen k _; simp [dropDupBy]
  | cons r rest ih =>
    intro seen k hk
    rw [dropDupBy]
    split
    · rename_i hseen
      rw [ih seen k hk]
      have hne : ¬ (k = rowCpf r) := fun hEq => hk (hEq ▸ hseen)
      simp [List.map_cons, List.mem_cons, hne]
    · rename_i hnot
      rw [List.countP_cons]
      by_cases hEq : k = rowCpf r
      · subst hEq
        rw [dropDupBy_seen_zero rest (rowCpf r :: seen) (rowCpf r) (by simp)]
        simp [List.map_cons]
      · have hk2 : k ∉ rowCpf r :: seen := by
          intro hmem
          rcases List.mem_cons.mp hmem with h2 | h2
          · exact hEq h2
          · exact hk h2
        rw [ih (rowCpf r :: seen) k hk2]
        have hne2 : ¬ (rowCpf r = k) := fun h2 => hEq h2.symm
        simp [List.map_cons, List.mem_cons, hEq, hne2]

/-- Every kept row is the first row of the list (among rows with an unseen
key) that carries its key. -/
lemma dropDupBy_first : ∀ (l : List (List Str)) (seen : List Str) (r : List Str),
    r ∈ dropDupBy l seen →
    rowCpf r ∉ seen ∧ ∃ pre post, l = pre ++ r :: post ∧
      ∀ q ∈ pre, rowCpf q ∉ seen → rowCpf q ≠ rowCpf r := by
  intro l
  induction l with
  | nil =>
    intro seen r h
    simp [dropDupBy] at h
  | cons x rest ih =>
    intro seen r h
    rw [dropDupBy] at h
    split at h
    · rename_i hseen
      obtain ⟨h1, pre, post, hsplit, hpre⟩ := ih seen r h
      refine ⟨h1, x :: pre, post, ?_, ?_⟩
      · rw [List.cons_append, hsplit]
      · intro q hq hq2
        rcases List.mem_cons.mp hq with rfl | hq3
        · exact absurd hseen hq2
        · exact hpre q hq3 hq2
    · rename_i hnot
      rcases List.mem_cons.mp h with rfl | h2
      · exact ⟨hnot, [], rest, rfl, by intro q hq; cases hq⟩
      · obtain ⟨h1, pre, post, hsplit, hpre⟩ := ih (rowCpf x :: seen) r h2
        have hne : rowCpf r ≠ rowCpf x := by
          intro hEq
          exact h1 (by simp [hEq])
        have h1b : rowCpf r ∉ seen := fun hmem => h1 (by simp [hmem])
        refine ⟨h1b, x :: pre, post, by rw [List.cons_append, hsplit], ?_⟩
        intro q hq hq2
        rcases List.mem_cons.mp hq with rfl | hq3
        · exact fun hEq => hne hEq.symm
        · by_cases hqx : rowCpf q = rowCpf x
          · exact fun hEq => hne (hEq.symm.trans hqx)
          · exact hpre q hq3 (by
              intro hmem
              rcases List.mem_cons.mp hmem with h3 | h3
              · exact hqx h3
              · exact hq2 h3)

/-- Successful runs return exactly the deduplicated assembled table. -/
lemma process_ok {t : Table} {out : List (List Str)}
    (h : process_data t = Except.ok out) : out = dropDupBy (assembled t) [] := by
  unfold process_data at h
  split at h
  · cases h
  · split at h
    · cases h
    · injection h with h1
      exact h1.symm

/-- The assembled output columns, written out field by field. -/
lemma outCols_eq (t : Table) : outCols t =
    [((r"codigo").data, List.replicate t.nrows []),
      ((r"razao_social").data, rsFinal t),
      ((r"fantasia").data, resolveField t.cols t.nrows (synsOf ((r"fantasia").data))),
      ((r"cpf").data, (docsOf t).map Prod.fst),
      ((r"tipo_pessoa").data, (docsOf t).map Prod.snd),
      ((r"email").data, resolveField t.cols t.nrows (synsOf ((r"email").data))),
      ((r"celular").data, resolveField t.cols t.nrows (synsOf ((r"celular").data))),
      ((r"cep").data, resolveField t.cols t.nrows (synsOf ((r"cep").data))),
      ((r"endereco").data, resolveField t.cols t.nrows (synsOf ((r"endereco").data))),
      ((r"numero").data, resolveField t.cols t.nrows (synsOf ((r"numero").data))),
      ((r"complemento").data, List.replicate t.nrows []),
      ((r"bairro").data, resolveField t.cols t.nrows (synsOf ((r"bairro").data))),
      ((r"cidade").data, resolveField t.cols t.nrows (synsOf ((r"cidade").data))),
      ((r"uf").data, (resolveField t.cols t.nrows (synsOf ((r"uf").data))).map ufPost),
      ((r"observacoes").data, resolveField t.cols t.nrows (synsOf ((r"observacoes").data)))] := by
  rfl

lemma trim_eq_nil_all_space {d : Str} (h : trim d = []) : ∀ c ∈ d, isSpace c = true := by
  have h2 : ∀ c ∈ trimL d, isSpace c = true := by
    have h3 : (trimL d).reverse.dropWhile isSpace = [] := by
      have h4 : ((trimL d).reverse.dropWhile isSpace).reverse = [] := h
      rwa [List.reverse_eq_nil_iff] at h4
    intro c hc
    exact List.dropWhile_eq_nil_iff.mp h3 c (List.mem_reverse.mpr hc)
  intro c hc
  rw [← List.takeWhile_append_dropWhile isSpace d] at hc
  rcases List.mem_append.mp hc with h4 | h4
  · exact List.mem_takeWhile_imp h4
  · exact h2 c h4

lemma not_digit_of_space {c : Char} (h : isSpace c = true) : c.isDigit = false := by
  have h2 : ((c = ' ' ∨ c = '\t') ∨ c = '\r') ∨ c = '\n' := by
    simpa [isSpace, Char.isWhitespace] using h
  rcases h2 with ((h2 | h2) | h2) | h2 <;> subst h2 <;> decide

/-- The classifier in closed form: the digits are always the digit filter of
the input, and the type is decided by the digit count alone. -/
lemma clean_document_eq (d : Str) :
    clean_document d = (d.filter Char.isDigit,
      if (d.filter Char.isDigit).length = 11 then (r"F").data
      else if (d.filter Char.isDigit).length = 14 then (r"J").data
      else []) := by
  unfold clean_document
  by_cases h : trim d = []
  · rw [if_pos h]
    have hf : d.filter Char.isDigit = [] := by
      rw [List.filter_eq_nil_iff]
      intro c hc
      simp [not_digit_of_space (trim_eq_nil_all_space h c hc)]
    rw [hf]
    rfl
  · rw [if_neg h]
    by_cases h11 : (d.filter Char.isDigit).length = 11
    · simp [h11]
    · by_cases h14 : (d.filter Char.isDigit).length = 14
      · simp [h11, h14]
      · simp [h11, h14]

/-- The classification invariant carried by every classified document. -/
lemma classification_invariant_pair (d : Str) :
    ((clean_document d).2 = (r"F").data ↔ (clean_document d).1.length = 11) ∧
    ((clean_document d).2 = (r"J").data ↔ (clean_document d).1.length = 14) ∧
    ((clean_document d).1.length ≠ 11 → (clean_document d).1.length ≠ 14 →
      (clean_document d).2 = []) := by
  rw [clean_document_eq]
  have hJF : ((r"J").data : Str) ≠ (r"F").data := by decide
  have hNF : (([] : Str)) ≠ (r"F").data := by decide
  have hNJ : (([] : Str)) ≠ (r"J").data := by decide
  by_cases h11 : (d.filter Char.isDigit).length = 11
  · constructor
    · simp [h11]
    constructor
    · simp [h11]
    · intro hc
      exact absurd h11 hc
  · by_cases h14 : (d.filter Char.isDigit).length = 14
    · constructor
      · simp [h11, h14, hJF]
      constructor
      · simp [h11, h14]
      · intro _ hc
        exact absurd h14 hc
    · constructor
      · simp [h11, h14, hNF]
      constructor
      · simp [h11, h14, hNJ]
      · intro _ _
        simp [h11, h14]

/-- Each output row is the row-major view of the output columns at some
index below the row count. -/
lemma mem_assembled_row {t : Table} {row : List Str} (h : row ∈ assembled t) :
    ∃ i, i < t.nrows ∧ row = (outCols t).map (fun p => p.2.getD i []) := by
  obtain ⟨i, hi, hEq⟩ := List.mem_iff_getElem.mp h
  have hlen : (assembled t).length = t.nrows := tableRows_length _ _
  have hi2 : i < t.nrows := hlen ▸ hi
  refine ⟨i, hi2, ?_⟩
  rw [← hEq, ← List.getD_eq_getElem (assembled t) [] hi]
  exact tableRows_getD (outCols t) t.nrows i hi2

/-! ### Claim theorems -/

/-- C2: for every raw document input d, clean_document returns person type
F (natural person) exactly when the string of digits left after stripping
every non-digit character from d has length 11, J (company) exactly when
that length is 14, and the empty (unknown) type otherwise; the stripped
digits themselves are returned unchanged in every case. -/
theorem clean_document_classifies_by_digit_count (d : Str) :
    (clean_document d).1 = d.filter Char.isDigit ∧
    ((clean_document d).2 = (r"F").data ↔ (clean_document d).1.length = 11) ∧
    ((clean_document d).2 = (r"J").data ↔ (clean_document d).1.length = 14) ∧
    ((clean_document d).1.length ≠ 11 → (clean_document d).1.length ≠ 14 →
      (clean_document d).2 = []) := by
  refine ⟨?_, classification_invariant_pair d⟩
  rw [clean_document_eq]

/-- Witness for C2 at a concrete CPF-shaped input. -/
theorem clean_document_classifies_by_digit_count_witness :
    (clean_document ((r"123.456.789-09").data)).2 = (r"F").data ∧
    (clean_document ((r"123.456.789-09").data)).1 = (r"12345678909").data := by
  have h := clean_document_classifies_by_digit_count ((r"123.456.789-09").data)
  refine ⟨h.2.1.mpr ?_, ?_⟩
  · rw [h.1]
    decide
  · rw [h.1]
    decide

/-- C5: on resolved (hence whitespace-stripped) name columns the per-row
reconstruction yields the stripped concatenation of the combined name and
the surname when the combined name is non-empty without internal whitespace
and the surname is non-empty; when the combined name is empty it yields the
stripped concatenation of first name and surname, falling back to the
sentinel label when that is still empty; and the result is never empty. -/
theorem name_reconstructor_spec (rs sn pn : Str) (hrs : trim rs = rs) :
    (rs.any isSpace = false → rs ≠ [] → sn ≠ [] →
      reconstruct_name rs sn pn = trim (rs ++ ' ' :: sn)) ∧
    (rs = [] → reconstruct_name rs sn pn =
      (if trim (pn ++ ' ' :: sn) = [] then (r"NÃO INFORMADO").data
        else trim (pn ++ ' ' :: sn))) ∧
    reconstruct_name rs sn pn ≠ [] := by
  refine ⟨?_, ?_, ?_⟩
  · intro h1 h2 h3
    obtain ⟨c, cs, hcons⟩ : ∃ c cs, rs = c :: cs := by
      cases rs with
      | nil => exact absurd rfl h2
      | cons c cs => exact ⟨c, cs, rfl⟩
    have hcsp : isSpace c = false := by
      have hall := List.any_eq_false.mp h1
      simpa using hall c (by rw [hcons]; exact List.mem_cons_self c cs)
    have htrimne : trim (rs ++ ' ' :: sn) ≠ [] := by
      intro h0
      have := trim_eq_nil_all_space h0 c (by rw [hcons]; simp)
      rw [this] at hcsp
      cases hcsp
    rw [reconstruct_name, nameStep1, if_pos ⟨h1, h2, h3⟩, nameStep2, if_neg htrimne,
      nameStep3, trim_idem, if_neg htrimne]
  · intro h0
    have hstep1 : nameStep1 rs sn = rs := by
      rw [nameStep1, if_neg]
      intro hcond
      exact hcond.2.1 h0
    rw [reconstruct_name, hstep1, h0, nameStep2, if_pos rfl, nameStep3, trim_idem]
  · rw [reconstruct_name, nameStep3]
    split
    · decide
    · rename_i h
      intro h0
      rw [h0] at h
      exact h rfl

/-- Witness for C5 at concrete name fragments. -/
theorem name_reconstructor_spec_witness :
    reconstruct_name ((r"Jo").data) ((r"Souza").data) [] =
      trim ((r"Jo").data ++ ' ' :: (r"Souza").data) ∧
    reconstruct_name [] ((r"Souza").data) ((r"Ana").data) =
      (if trim ((r"Ana").data ++ ' ' :: (r"Souza").data) = [] then (r"NÃO INFORMADO").data
        else trim ((r"Ana").data ++ ' ' :: (r"Souza").data)) ∧
    reconstruct_name ((r"Jo").data) ((r"Souza").data) [] ≠ [] := by
  have h1 := name_reconstructor_spec ((r"Jo").data) ((r"Souza").data) [] (by decide)
  have h2 := name_reconstructor_spec [] ((r"Souza").data) ((r"Ana").data) (by decide)
  exact ⟨h1.1 (by decide) (by decide) (by decide), h2.2.1 rfl, h1.2.2⟩

/-- C6: for every canonical field of the synonym dictionary the resolver
selects the first source header, in original order, whose normalized form
contains one of the field synonyms as a substring, and resolves it to the
cleaned cells of that header; when no header matches, the field resolves to
a column of empty strings; headers are not consumed, so the same header can
be selected by more than one field (razao_social and primeiro_nome both
select the header Nome). -/
theorem column_resolver_first_match :
    (∀ (cols : List (Str × List Str)) (nrows : Nat) (field : Str) (syns : List Str),
      (field, syns) ∈ COLUMN_MAPPINGS →
      ∀ (pre : List (Str × List Str)) (c : Str × List Str) (post : List (Str × List Str)),
        cols = pre ++ c :: post → headerMatches syns c.1 = true →
        (∀ q ∈ pre, headerMatches syns q.1 = false) →
        lookupCol field (map_source_columns cols nrows) = some (clean_str_series c.2)) ∧
    (∀ (cols : List (Str × List Str)) (nrows : Nat) (field : Str) (syns : List Str),
      (field, syns) ∈ COLUMN_MAPPINGS →
      (∀ q ∈ cols, headerMatches syns q.1 = false) →
      lookupCol field (map_source_columns cols nrows) = some (List.replicate nrows [])) ∧
    (lookupCol ((r"razao_social").data) (map_source_columns demoNome 1) =
        some [(r"Maria").data] ∧
      lookupCol ((r"primeiro_nome").data) (map_source_columns demoNome 1) =
        some [(r"Maria").data]) := by
  have hnd : (COLUMN_MAPPINGS.map Prod.fst).Nodup := by decide
  refine ⟨?_, ?_, ?_, ?_⟩
  · intro cols nrows field syns hmem pre c post hcols hc hpre
    subst hcols
    rw [map_source_columns, lookupCol_map_resolve _ _ COLUMN_MAPPINGS field syns hnd hmem]
    have hfind : (pre ++ c :: post).find? (fun q => headerMatches syns q.1) = some c :=
      find?_first_hit _ pre c post hpre hc
    rw [resolveField, hfind]
  · intro cols nrows field syns hmem hnone
    rw [map_source_columns, lookupCol_map_resolve _ _ COLUMN_MAPPINGS field syns hnd hmem]
    have hfind : cols.find? (fun q => headerMatches syns q.1) = none :=
      List.find?_eq_none.mpr (fun q hq => by simp [hnone q hq])
    rw [resolveField, hfind]
  · decide
  · decide

/-- Witness for C6: a table with no matching header resolves the email field
to a column of empty strings. -/
theorem column_resolver_first_match_witness :
    lookupCol ((r"email").data)
        (map_source_columns [((r"X").data, [(r"y").data])] 1) =
      some (List.replicate 1 []) := by
  have h := column_resolver_first_match
  exact h.2.1 [((r"X").data, [(r"y").data])] 1 ((r"email").data)
    (synsOf ((r"email").data)) (by decide) (by decide)

/-- C8: when no source header resolves to the document field, or every
resolved document value cleans to empty, a non-empty table is rejected with
the no-document-column error and no output table is produced. -/
theorem no_document_column_error (t : Table) (h1 : t.nrows ≠ 0) (h2 : t.cols ≠ [])
    (h3 : (∀ c ∈ t.cols, headerMatches (synsOf ((r"cpf").data)) c.1 = false) ∨
      (∀ v ∈ resolveField t.cols t.nrows (synsOf ((r"cpf").data)), v = [])) :
    process_data t = Except.error ProcErr.noDocumentColumn := by
  have hnd : (COLUMN_MAPPINGS.map Prod.fst).Nodup := by decide
  have hlook : lookupCol ((r"cpf").data) (mappedCols t) =
      some (resolveField t.cols t.nrows (synsOf ((r"cpf").data))) := by
    rw [mappedCols, map_source_columns]
    exact lookupCol_map_resolve _ _ COLUMN_MAPPINGS _ _ hnd (by decide)
  have hall : (lookupColD (mappedCols t) ((r"cpf").data) []).all (fun v => v.isEmpty) = true := by
    rw [lookupColD, hlook, Option.getD_some]
    rcases h3 with h3 | h3
    · have hfind : t.cols.find? (fun q => headerMatches (synsOf ((r"cpf").data)) q.1) = none :=
        List.find?_eq_none.mpr (fun q hq => by simp [h3 q hq])
      rw [resolveField, hfind]
      rw [List.all_eq_true]
      intro v hv
      rw [List.eq_of_mem_replicate hv]
      rfl
    · rw [List.all_eq_true]
      intro v hv
      rw [h3 v hv]
      rfl
  rw [process_data, if_neg (by
      intro hor
      rcases hor with hor | hor
      · exact h1 hor
      · exact h2 hor), if_pos hall]

/-- Witness for C8: a table whose only header is Nome has no document column
and is rejected. -/
theorem no_document_column_error_witness :
    process_data ⟨[((r"Nome").data, [(r"Ana").data])], 1⟩ =
      Except.error ProcErr.noDocumentColumn :=
  no_document_column_error ⟨[((r"Nome").data, [(r"Ana").data])], 1⟩
    (by decide) (by decide) (Or.inl (by decide))

/-- C10: in every successfully produced output table the codigo and
complemento fields are the empty string on every row: no synonym mapping
exists for either, so both are always filled with empty strings. -/
theorem codigo_complemento_always_empty (t : Table) (out : List (List Str))
    (h : process_data t = Except.ok out) :
    ∀ row ∈ out, rowField row ((r"codigo").data) = [] ∧
      rowField row ((r"complemento").data) = [] := by
  intro row hrow
  rw [process_ok h] at hrow
  have hmem : row ∈ assembled t := (dropDupBy_sublist (assembled t) []).subset hrow
  obtain ⟨i, hi, hrow2⟩ := mem_assembled_row hmem
  subst hrow2
  constructor
  · show (List.replicate t.nrows ([] : Str)).getD i [] = []
    exact getD_replicate_nil _ _
  · show (List.replicate t.nrows ([] : Str)).getD i [] = []
    exact getD_replicate_nil _ _

/-- Witness for C10 at a concrete one-row table. -/
theorem codigo_complemento_always_empty_witness :
    rowField C10row ((r"codigo").data) = [] ∧
      rowField C10row ((r"complemento").data) = [] := by
  have h := codigo_complemento_always_empty T10 [C10row] rfl
  exact h C10row (by simp)

/-- C9 counterexample: the assembled output of table T9 carries the document
digits 123, of length 3, which is neither 0 nor 11 nor 14, so the claimed
length invariant fails on the code; the unknown person type is kept. -/
theorem digits_length_counterexample :
    process_data T9 = Except.ok [C9row] ∧
    rowField C9row ((r"cpf").data) = (r"123").data ∧
    ¬((rowField C9row ((r"cpf").data)).length = 0 ∨
      (rowField C9row ((r"cpf").data)).length = 11 ∨
      (rowField C9row ((r"cpf").data)).length = 14) ∧
    rowField C9row ((r"tipo_pessoa").data) = [] :=
  ⟨rfl, rfl, by decide, rfl⟩

/-- C9 (amended): in every output table the cleaned digit string is retained
whatever its length, and the person type is F exactly for digit length 11,
J exactly for length 14, and empty (Unknown) for any other length. -/
theorem output_classification_invariant (t : Table) (out : List (List Str))
    (h : process_data t = Except.ok out) :
    ∀ row ∈ out,
      (rowField row ((r"tipo_pessoa").data) = (r"F").data ↔
        (rowField row ((r"cpf").data)).length = 11) ∧
      (rowField row ((r"tipo_pessoa").data) = (r"J").data ↔
        (rowField row ((r"cpf").data)).length = 14) ∧
      ((rowField row ((r"cpf").data)).length ≠ 11 →
        (rowField row ((r"cpf").data)).length ≠ 14 →
        rowField row ((r"tipo_pessoa").data) = []) := by
  intro row hrow
  rw [process_ok h] at hrow
  have hmem : row ∈ assembled t := (dropDupBy_sublist (assembled t) []).subset hrow
  obtain ⟨i, hi, hrow2⟩ := mem_assembled_row hmem
  subst hrow2
  have hcpf : rowField ((outCols t).map fun p => p.2.getD i []) ((r"cpf").data) =
      ((docsOf t).map Prod.fst).getD i [] := rfl
  have htipo : rowField ((outCols t).map fun p => p.2.getD i []) ((r"tipo_pessoa").data) =
      ((docsOf t).map Prod.snd).getD i [] := rfl
  rw [hcpf, htipo]
  by_cases hlt : i < (docsOf t).length
  · have h1 : ((docsOf t).map Prod.fst).getD i [] = ((docsOf t).get ⟨i, hlt⟩).1 := by
      rw [List.getD_eq_getElem?_getD, List.getElem?_map, List.getElem?_eq_getElem hlt]
      rfl
    have h2 : ((docsOf t).map Prod.snd).getD i [] = ((docsOf t).get ⟨i, hlt⟩).2 := by
      rw [List.getD_eq_getElem?_getD, List.getElem?_map, List.getElem?_eq_getElem hlt]
      rfl
    rw [h1, h2]
    have hmem2 : (docsOf t).get ⟨i, hlt⟩ ∈ docsOf t := List.get_mem (docsOf t) i hlt
    have hex : ∃ v, clean_document v = (docsOf t).get ⟨i, hlt⟩ := by
      have hx := hmem2
      unfold docsOf at hx
      obtain ⟨v, _, hv2⟩ := List.mem_map.mp hx
      exact ⟨v, hv2⟩
    obtain ⟨v, hv2⟩ := hex
    rw [← hv2]
    exact classification_invariant_pair v
  · have hlen : (docsOf t).length ≤ i := Nat.le_of_not_lt hlt
    have h1 : ((docsOf t).map Prod.fst).getD i [] = [] := by
      rw [List.getD_eq_getElem?_getD, List.getElem?_eq_none (by simpa using hlen)]
      rfl
    have h2 : ((docsOf t).map Prod.snd).getD i [] = [] := by
      rw [List.getD_eq_getElem?_getD, List.getElem?_eq_none (by simpa using hlen)]
      rfl
    rw [h1, h2]
    exact ⟨by decide, by decide, fun _ _ => rfl⟩

/-- Witness for the amended C9 at the concrete table T9. -/
theorem output_classification_invariant_witness :
    rowField C9row ((r"tipo_pessoa").data) = [] := by
  have h := output_classification_invariant T9 [C9row] rfl C9row (by simp)
  exact h.2.2 (by decide) (by decide)

/-- C4 counterexample: for table T4 the assembled company row keeps the
trade name ACME even though it equals the finalized legal name, so the
claimed clearing rule fails on the code. -/
theorem fantasia_not_cleared_counterexample :
    process_data T4 = Except.ok [C4row] ∧
    rowField C4row ((r"tipo_pessoa").data) = (r"J").data ∧
    rowField C4row ((r"fantasia").data) = rowField C4row ((r"razao_social").data) ∧
    rowField C4row ((r"fantasia").data) ≠ [] :=
  ⟨rfl, rfl, rfl, by decide⟩

/-- C4 (amended): the trade-name output field is the resolved fantasia
column value of the row, passed through unchanged; it is never cleared,
whatever the person type or the legal name. -/
theorem fantasia_passthrough (t : Table) (i : Nat) (hi : i < t.nrows) :
    rowField ((assembled t).getD i []) ((r"fantasia").data) =
      (resolveField t.cols t.nrows (synsOf ((r"fantasia").data))).getD i [] := by
  rw [show (assembled t).getD i [] = (outCols t).map (fun p => p.2.getD i []) from
    tableRows_getD (outCols t) t.nrows i hi]
  rfl

/-- Witness for the amended C4 at the concrete table T4. -/
theorem fantasia_passthrough_witness :
    rowField ((assembled T4).getD 0 []) ((r"fantasia").data) =
      (resolveField T4.cols T4.nrows (synsOf ((r"fantasia").data))).getD 0 [] :=
  fantasia_passthrough T4 0 (by decide)

/-- C1 counterexample: in table T1 both assembled rows share the document
12345678909, the second row has strictly more non-empty fields, yet the
deduplicated output is exactly the first row, so the most-complete selection
rule fails on the code. -/
theorem dedup_keeps_first_row_counterexample :
    assembled T1 = [C1row1, C1row2] ∧
    rowCpf C1row1 = rowCpf C1row2 ∧
    nonEmptyCount C1row1 = 3 ∧
    nonEmptyCount C1row2 = 4 ∧
    C1row1 ≠ C1row2 ∧
    process_data T1 = Except.ok [C1row1] :=
  ⟨rfl, rfl, rfl, rfl, by decide, rfl⟩

/-- C1 (amended): the deduplicator keeps, for every document group, the row
at the earliest original position, regardless of how many non-empty fields
the other rows of the group have. -/
theorem dedup_selects_first_row_of_group (t : Table) (out : List (List Str))
    (h : process_data t = Except.ok out) :
    ∀ row ∈ out, ∃ pre post, assembled t = pre ++ row :: post ∧
      ∀ q ∈ pre, rowCpf q ≠ rowCpf row := by
  intro row hrow
  rw [process_ok h] at hrow
  obtain ⟨_, pre, post, hsplit, hpre⟩ := dropDupBy_first (assembled t) [] row hrow
  exact ⟨pre, post, hsplit, fun q hq => hpre q hq (by simp)⟩

/-- Witness for the amended C1 at the concrete table T1. -/
theorem dedup_selects_first_row_of_group_witness :
    ∃ pre post, assembled T1 = pre ++ C1row1 :: post ∧
      ∀ q ∈ pre, rowCpf q ≠ rowCpf C1row1 :=
  dedup_selects_first_row_of_group T1 [C1row1] rfl C1row1 (by simp)

/-- C3: the deduplicated output has at most as many rows as the input,
is an order-preserving selection of the assembled rows, carries every
distinct non-empty document value on exactly one row, and each output row
is the first assembled row of its document group, so groups appear in
first-appearance order. -/
theorem dedup_output_counts_and_order (t : Table) (out : List (List Str))
    (h : process_data t = Except.ok out) :
    out.length ≤ t.nrows ∧
    out.Sublist (assembled t) ∧
    (∀ k : Str, k ≠ [] → k ∈ (assembled t).map rowCpf →
      out.countP (fun row => decide (rowCpf row = k)) = 1) ∧
    (∀ row ∈ out, ∃ pre post, assembled t = pre ++ row :: post ∧
      ∀ q ∈ pre, rowCpf q ≠ rowCpf row) := by
  have hout := process_ok h
  subst hout
  refine ⟨?_, ?_, ?_, ?_⟩
  · exact (dropDupBy_sublist (assembled t) []).length_le.trans
      (Nat.le_of_eq (tableRows_length (outCols t) t.nrows))
  · exact dropDupBy_sublist _ _
  · intro k _ hmem
    rw [dropDupBy_count (assembled t) [] k (by simp), if_pos hmem]
  · intro row hrow
    obtain ⟨_, pre, post, hsplit, hpre⟩ := dropDupBy_first (assembled t) [] row hrow
    exact ⟨pre, post, hsplit, fun q hq => hpre q hq (by simp)⟩

/-- Witness for C3 at the concrete table T3. -/
theorem dedup_output_counts_and_order_witness :
    ([C3rowA, C3rowB] : List (List Str)).length ≤ T3.nrows ∧
    ([C3rowA, C3rowB] : List (List Str)).countP
      (fun row => decide (rowCpf row = (r"111").data)) = 1 := by
  have h := dedup_output_counts_and_order T3 [C3rowA, C3rowB] rfl
  exact ⟨h.1, h.2.2.1 ((r"111").data) (by decide) (by decide)⟩

end Formatador
